import Mathlib

/-!
Shallow embedding of `src/extract_frames/main.py` (gurrutia/extract-frames),
a CLI tool that samples frames out of a video file.

Conventions used throughout:
* Python `int` is arbitrary precision, so it is modelled as `Int`
  (or as `Nat` where the quantity is provably non-negative).
* Functions that `raise` are modelled with `Except`/`Option`.
* The filesystem is a list of existing paths; the cv2 collaborators are
  modelled by explicit parameters (whether the video opens, its reported
  metadata, and the number of frames that can actually be read).
-/

namespace ExtractFrames

/-- The three `ValueError`s raised by `validate_start_end` (main.py 85-94). -/
inductive RangeErr where
  | startExceeds   -- "Start timestamp exceeds video length"
  | emptyRange     -- "End timestamp equal to start timestamp"
  | inverted       -- "End timestamp prior to start timestamp"
deriving DecidableEq, Repr

/-- `start = args.start * fps if args.start != 0 else 0` (main.py line 85). -/
def start_frame_calc (start fps : Int) : Int :=
  if start ≠ 0 then start * fps else 0

/-- `end = args.end * fps if args.end is not None else framecount` followed by
the clamp `end = framecount if end > framecount else end` (main.py 89-90). -/
def end_frame_calc (framecount fps : Int) (endTs : Option Int) : Int :=
  if (endTs.elim framecount fun t => t * fps) > framecount then framecount
  else endTs.elim framecount fun t => t * fps

/-- `validate_start_end` (main.py 82-96): resolve the second/frame range,
raising `ValueError` on a start past the end of the video, an empty range, or
an inverted range.  The branch order follows the source: the start bound is
checked before the end is even computed. -/
def validate_start_end (framecount fps start : Int) (endTs : Option Int) :
    Except RangeErr (Int × Int) :=
  if start_frame_calc start fps > framecount then .error .startExceeds
  else if end_frame_calc framecount fps endTs = start_frame_calc start fps then
    .error .emptyRange
  else if end_frame_calc framecount fps endTs < start_frame_calc start fps then
    .error .inverted
  else .ok (start_frame_calc start fps, end_frame_calc framecount fps endTs)

theorem start_frame_calc_eq (start fps : Int) :
    start_frame_calc start fps = start * fps := by
  unfold start_frame_calc
  split
  · rfl
  · rename_i h
    push_neg at h
    simp [h]

/-- C1: on success the resolver returns `start_seconds * fps` and
`min (end_seconds * fps) frame_count` (or `frame_count` when no end was
supplied); concretely `resolve_range 1000 10 0 none = (0, 1000)`. -/
theorem validate_start_end_values
    (framecount fps start stride : Int) (endTs : Option Int)
    (hfc : 0 ≤ framecount) (hfps : 0 ≤ fps) (hstride : 0 < stride)
    (hs : 0 ≤ start) (hend : ∀ t ∈ endTs, 0 ≤ t) :
    (∀ a b, validate_start_end framecount fps start endTs = .ok (a, b) →
      a = start * fps ∧ (start = 0 → a = 0) ∧
      b = endTs.elim framecount fun t => min (t * fps) framecount)
    ∧ validate_start_end 1000 10 0 none = .ok (0, 1000) := by
  constructor
  · intro a b hok
    unfold validate_start_end at hok
    rw [start_frame_calc_eq] at hok
    split at hok
    · exact absurd hok (by simp)
    · split at hok
      · exact absurd hok (by simp)
      · split at hok
        · exact absurd hok (by simp)
        · simp only [Except.ok.injEq, Prod.mk.injEq] at hok
          obtain ⟨ha, hb⟩ := hok
          refine ⟨ha.symm, ?_, ?_⟩
          · intro h0; rw [← ha, h0, zero_mul]
          · rw [← hb]
            unfold end_frame_calc
            cases endTs with
            | none => simp
            | some t =>
              simp only [Option.elim_some]
              split <;> rename_i h <;> omega
  · rfl

/-- C5: whenever validation succeeds, `0 ≤ start_frame < end_frame ≤
frame_count`. -/
theorem validate_start_end_invariant
    (framecount fps start : Int) (endTs : Option Int)
    (hfc : 0 ≤ framecount) (hfps : 0 ≤ fps)
    (hs : 0 ≤ start) (hend : ∀ t ∈ endTs, 0 ≤ t) :
    ∀ a b, validate_start_end framecount fps start endTs = .ok (a, b) →
      0 ≤ a ∧ a < b ∧ b ≤ framecount := by
  intro a b hok
  unfold validate_start_end at hok
  rw [start_frame_calc_eq] at hok
  split at hok
  · exact absurd hok (by simp)
  · rename_i hsf
    split at hok
    · exact absurd hok (by simp)
    · rename_i heq
      split at hok
      · exact absurd hok (by simp)
      · rename_i hlt
        simp only [Except.ok.injEq, Prod.mk.injEq] at hok
        obtain ⟨ha, hb⟩ := hok
        subst ha hb
        refine ⟨mul_nonneg hs hfps, by omega, ?_⟩
        unfold end_frame_calc
        cases endTs with
        | none => simp
        | some t =>
          simp only [Option.elim_some]
          split <;> omega

/-- Witness for C5 at `framecount = 100`, `fps = 10`, `start = 2`,
`end = some 8`: validation returns `(20, 80)` and the invariant holds. -/
theorem validate_start_end_invariant_witness :
    0 ≤ (20 : Int) ∧ (20 : Int) < 80 ∧ (80 : Int) ≤ 100 :=
  validate_start_end_invariant 100 10 2 (some 8)
    (by decide) (by decide) (by decide) (by intro t ht; simp at ht; omega)
    20 80 (by rfl)

/-- Witness for C1 at `framecount = 1000`, `fps = 10`, `start = 0`,
`end = none`, `stride = 1`. -/
theorem validate_start_end_values_witness :
    (0 : Int) = 0 * 10 ∧
    validate_start_end 1000 10 0 none = .ok (0, 1000) := by
  have h := validate_start_end_values 1000 10 0 1 none
    (by decide) (by decide) (by decide) (by decide) (by simp)
  exact ⟨(h.1 0 1000 h.2).1, h.2⟩

/-- C6 counterexample: at `framecount = 100`, `fps = 10`, `start = 20`,
`end = some 5`, the resolver raises the start-exceeds-length error (the start
bound is checked first, and `20 * 10 = 200 > 100`), not the inverted-range
error the claim names. -/
theorem validate_start_end_c6_counterexample :
    validate_start_end 100 10 20 (some 5) = .error .startExceeds ∧
    validate_start_end 100 10 20 (some 5) ≠ .error .inverted := by
  refine ⟨rfl, ?_⟩
  intro h
  rw [show validate_start_end 100 10 20 (some 5) = .error .startExceeds from rfl]
    at h
  simp at h

/-- C6 amended: `resolve_range 100 10 20 (some 5)` fails, but with the
start-exceeds-length `RangeError`; the inverted-range error needs the start
frame to fit inside the video, e.g. `framecount = 1000` with the same other
arguments raises it. -/
theorem validate_start_end_c6_amended :
    validate_start_end 100 10 20 (some 5) = .error .startExceeds ∧
    validate_start_end 1000 10 20 (some 5) = .error .inverted :=
  ⟨rfl, rfl⟩

/-- C7: with `fps = 0` the seconds-to-frame conversion multiplies by zero: a
non-zero start collapses to frame 0 rather than failing, any supplied end
collapses to end frame 0, and `fps = 0` itself is never rejected — with no
end supplied validation even succeeds, returning `(0, framecount)`. -/
theorem validate_start_end_fps_zero
    (framecount start : Int) (hfc : 1 ≤ framecount) (hs : start ≠ 0) :
    start_frame_calc start 0 = 0
    ∧ (∀ e : Int, end_frame_calc framecount 0 (some e) = 0)
    ∧ validate_start_end framecount 0 start none = .ok (0, framecount)
    ∧ (∀ e : Int,
        validate_start_end framecount 0 start (some e) = .error .emptyRange) := by
  have hstart : start_frame_calc start 0 = 0 := by
    rw [start_frame_calc_eq, mul_zero]
  have hend : ∀ e : Int, end_frame_calc framecount 0 (some e) = 0 := by
    intro e
    unfold end_frame_calc
    simp only [Option.elim_some, mul_zero]
    split <;> omega
  refine ⟨hstart, hend, ?_, ?_⟩
  · unfold validate_start_end
    rw [hstart]
    have hnone : end_frame_calc framecount 0 none = framecount := by
      unfold end_frame_calc
      simp
    rw [hnone]
    split_ifs <;> first | rfl | omega
  · intro e
    unfold validate_start_end
    rw [hstart, hend e]
    split_ifs <;> first | rfl | omega

/-- Witness for C7 at `framecount = 100`, `start = 5`, `end = some 7`. -/
theorem validate_start_end_fps_zero_witness :
    start_frame_calc 5 0 = 0
    ∧ end_frame_calc 100 0 (some 7) = 0
    ∧ validate_start_end 100 0 5 none = .ok (0, 100)
    ∧ validate_start_end 100 0 5 (some 7) = .error .emptyRange := by
  have h := validate_start_end_fps_zero 100 5 (by decide) (by decide)
  exact ⟨h.1, h.2.1 7, h.2.2.1, h.2.2.2 7⟩


/-! ### The timestamp parser (main.py 34-67)

Python string primitives (`int(str)`, `str.split`, `in`, `len`) are modelled
at the character-list level so that every definition is structurally
recursive and kernel-computable. -/

/-- Strip leading and trailing whitespace, as Python's `int` does before
converting. -/
def trim_chars (cs : List Char) : List Char :=
  ((cs.dropWhile Char.isWhitespace).reverse.dropWhile Char.isWhitespace).reverse

/-- Value of a non-empty list of ASCII decimal digits; `none` when the list
is empty or holds a non-digit. -/
def digits_value (cs : List Char) : Option Nat :=
  if cs = [] then none
  else if cs.all Char.isDigit then
    some (cs.foldl (fun a c => a * 10 + (c.toNat - 48)) 0)
  else none

/-- Model of Python's built-in `int(text)` conversion as used by
`positive_int` (main.py 36): surrounding whitespace is stripped, one leading
`+`/`-` sign is allowed, and the rest must be one or more ASCII decimal
digits; any other text raises `ValueError`, modelled as `none`. -/
def python_int (s : List Char) : Option Int :=
  match trim_chars s with
  | [] => none
  | '+' :: cs => (digits_value cs).map (fun n => (n : Int))
  | '-' :: cs => (digits_value cs).map (fun n => -(n : Int))
  | cs => (digits_value cs).map (fun n => (n : Int))

/-- `positive_int` (main.py 34-45): parse an integer, then reject it when it
is negative (`allow_zero = true`) or non-positive (`allow_zero = false`). -/
def positive_int (s : List Char) (allow_zero : Bool) : Option Int :=
  match python_int s with
  | none => none
  | some n =>
      if (allow_zero && decide (n < 0)) || (!allow_zero && decide (n ≤ 0)) then
        none
      else some n

/-- Python's `text.split(sep)` for a single-character separator: `[[]]` on
the empty string, and a new (possibly empty) component after every
separator occurrence. -/
def split_char (sep : Char) : List Char → List (List Char)
  | [] => [[]]
  | c :: cs =>
    match split_char sep cs with
    | [] => if c = sep then [[], []] else [[c]]
    | g :: gs => if c = sep then [] :: g :: gs else (c :: g) :: gs

/-- One iteration of the loop in `timestamp_in_seconds` (main.py 52-63):
check one colon-separated component and fold it into the accumulator. -/
def ts_component_step (seconds : Int) (value : List Char) : Option Int :=
  if value.length > 2 then none
  else match positive_int value true with
    | none => none
    | some n => if n ≥ 60 then none else some (seconds * 60 + n)

/-- `timestamp_in_seconds` (main.py 48-67): either fold the colon-separated
components base-60, or parse the whole text as a non-negative integer. -/
def timestamp_in_seconds (ts : String) : Option Int :=
  if ts.data.contains ':' then
    (split_char ':' ts.data).foldlM ts_component_step 0
  else positive_int ts.data true

theorem positive_int_true_some_iff (v : List Char) (n : Int) :
    positive_int v true = some n ↔ python_int v = some n ∧ 0 ≤ n := by
  cases hp : python_int v with
  | none => simp [positive_int, hp]
  | some m =>
    simp only [positive_int, hp, Bool.true_and, Bool.not_true, Bool.false_and,
      Bool.or_false, Option.some.injEq]
    by_cases hm : m < 0
    · rw [if_pos (by simpa using hm)]
      simp only [reduceCtorEq, false_iff]
      rintro ⟨rfl, h⟩
      omega
    · rw [if_neg (by simpa using hm)]
      simp only [Option.some.injEq]
      constructor
      · rintro rfl
        exact ⟨rfl, by omega⟩
      · rintro ⟨h, _⟩
        exact h

theorem positive_int_true_none_iff (v : List Char) :
    positive_int v true = none ↔
      python_int v = none ∨ ∃ n, python_int v = some n ∧ n < 0 := by
  cases hp : python_int v with
  | none => simp [positive_int, hp]
  | some m =>
    simp only [positive_int, hp, Bool.true_and, Bool.not_true, Bool.false_and,
      Bool.or_false, reduceCtorEq, false_or, Option.some.injEq]
    by_cases hm : m < 0
    · rw [if_pos (by simpa using hm)]
      simp only [true_iff]
      exact ⟨m, rfl, hm⟩
    · rw [if_neg (by simpa using hm)]
      simp only [reduceCtorEq, false_iff]
      rintro ⟨n, rfl, h⟩
      omega

/-- A component on which the loop body succeeds. -/
def good_component (v : List Char) : Prop :=
  v.length ≤ 2 ∧ ∃ n, python_int v = some n ∧ 0 ≤ n ∧ n < 60

/-- A component on which the loop body raises `InvalidTimestamp`. -/
def bad_component (v : List Char) : Prop :=
  2 < v.length ∨ python_int v = none
    ∨ ∃ n, python_int v = some n ∧ (n < 0 ∨ 60 ≤ n)

theorem ts_component_step_good (acc : Int) (v : List Char)
    (h : good_component v) :
    ts_component_step acc v = some (acc * 60 + (python_int v).getD 0) := by
  obtain ⟨hlen, n, hv, hn0, hn60⟩ := h
  have hp : positive_int v true = some n :=
    (positive_int_true_some_iff v n).2 ⟨hv, hn0⟩
  unfold ts_component_step
  rw [if_neg (by omega), hv]
  simp only [hp, Option.getD_some]
  rw [if_neg (by omega)]

theorem ts_component_step_none_iff (acc : Int) (v : List Char) :
    ts_component_step acc v = none ↔ bad_component v := by
  unfold ts_component_step
  by_cases hlen : v.length > 2
  · rw [if_pos hlen]
    simp only [true_iff]
    exact Or.inl hlen
  · rw [if_neg hlen]
    cases hp : positive_int v true with
    | none =>
      show (none : Option Int) = none ↔ bad_component v
      simp only [true_iff]
      rcases (positive_int_true_none_iff v).1 hp with h | ⟨n, hn, hneg⟩
      · exact Or.inr (Or.inl h)
      · exact Or.inr (Or.inr ⟨n, hn, Or.inl hneg⟩)
    | some n =>
      obtain ⟨hv, hn0⟩ := (positive_int_true_some_iff v n).1 hp
      show (if n ≥ 60 then (none : Option Int) else some (acc * 60 + n)) =
          none ↔ bad_component v
      by_cases h60 : n ≥ 60
      · rw [if_pos h60]
        simp only [true_iff]
        exact Or.inr (Or.inr ⟨n, hv, Or.inr h60⟩)
      · rw [if_neg h60]
        simp only [reduceCtorEq, false_iff]
        unfold bad_component
        push_neg
        refine ⟨by omega, by simp [hv], ?_⟩
        intro m hm
        rw [hv, Option.some_inj] at hm
        omega

theorem foldlM_components_good (l : List (List Char)) (acc : Int)
    (h : ∀ v ∈ l, good_component v) :
    l.foldlM ts_component_step acc =
      some (l.foldl (fun s v => s * 60 + (python_int v).getD 0) acc) := by
  induction l generalizing acc with
  | nil => rfl
  | cons v rest ih =>
    have hv := h v (List.mem_cons_self v rest)
    have hrest : ∀ w ∈ rest, good_component w :=
      fun w hw => h w (List.mem_cons_of_mem v hw)
    rw [List.foldlM_cons, ts_component_step_good acc v hv]
    simp only [Option.bind_eq_bind, Option.some_bind]
    rw [ih _ hrest, List.foldl_cons]

theorem foldlM_components_none_iff (l : List (List Char)) (acc : Int) :
    l.foldlM ts_component_step acc = none ↔ ∃ v ∈ l, bad_component v := by
  induction l generalizing acc with
  | nil => simp [List.foldlM]
  | cons v rest ih =>
    rw [List.foldlM_cons]
    by_cases hbad : bad_component v
    · have hstep := (ts_component_step_none_iff acc v).2 hbad
      rw [hstep]
      simp only [Option.bind_eq_bind, Option.none_bind, true_iff]
      exact ⟨v, List.mem_cons_self v rest, hbad⟩
    · have hstep : ∃ m, ts_component_step acc v = some m := by
        cases hs : ts_component_step acc v with
        | none => exact absurd ((ts_component_step_none_iff acc v).1 hs) hbad
        | some m => exact ⟨m, rfl⟩
      obtain ⟨m, hm⟩ := hstep
      rw [hm]
      simp only [Option.bind_eq_bind, Option.some_bind]
      rw [ih m]
      constructor
      · rintro ⟨w, hw, hbw⟩
        exact ⟨w, List.mem_cons_of_mem v hw, hbw⟩
      · rintro ⟨w, hw, hbw⟩
        rcases List.mem_cons.1 hw with hw | hw
        · subst hw
          exact absurd hbw hbad
        · exact ⟨w, hw, hbw⟩

/-- C3: on a colon-separated timestamp whose components all have at most two
characters and parse as non-negative integers below 60, the parser returns
the left-to-right fold `seconds = seconds * 60 + component`; without a colon
it returns the parsed non-negative integer itself.  Concretely
`"01:02:05" ↦ 3725`, `"1:2:3:4" ↦ ((1*60+2)*60+3)*60+4 = 223384`, and
`"125" ↦ 125`. -/
theorem timestamp_in_seconds_fold (ts : String) :
    (ts.data.contains ':' = true →
      (∀ v ∈ split_char ':' ts.data, good_component v) →
      timestamp_in_seconds ts =
        some ((split_char ':' ts.data).foldl
          (fun s v => s * 60 + (python_int v).getD 0) 0))
    ∧ (ts.data.contains ':' = false →
        ∀ n : Int, python_int ts.data = some n → 0 ≤ n →
        timestamp_in_seconds ts = some n)
    ∧ timestamp_in_seconds "01:02:05" = some 3725
    ∧ timestamp_in_seconds "1:2:3:4" = some 223384
    ∧ timestamp_in_seconds "125" = some 125 := by
  refine ⟨?_, ?_, by rfl, by rfl, by rfl⟩
  · intro hc hgood
    unfold timestamp_in_seconds
    rw [if_pos hc]
    exact foldlM_components_good _ 0 hgood
  · intro hc n hn hn0
    have hp : positive_int ts.data true = some n :=
      (positive_int_true_some_iff ts.data n).2 ⟨hn, hn0⟩
    unfold timestamp_in_seconds
    rw [if_neg (by rw [hc]; simp), hp]

/-- Witness for C3 at `ts = "01:02:05"`: the component hypotheses hold and
the fold evaluates to 3725. -/
theorem timestamp_in_seconds_fold_witness :
    timestamp_in_seconds "01:02:05" =
      some ((split_char ':' "01:02:05".data).foldl
        (fun s v => s * 60 + (python_int v).getD 0) 0) := by
  refine (timestamp_in_seconds_fold "01:02:05").1 (by rfl) ?_
  intro v hv
  have hsplit : split_char ':' "01:02:05".data =
      [['0', '1'], ['0', '2'], ['0', '5']] := by rfl
  rw [hsplit] at hv
  simp only [List.mem_cons, List.not_mem_nil, or_false] at hv
  rcases hv with h | h | h <;> subst h
  · exact ⟨by decide, 1, by rfl, by decide, by decide⟩
  · exact ⟨by decide, 2, by rfl, by decide, by decide⟩
  · exact ⟨by decide, 5, by rfl, by decide, by decide⟩

/-- C4: the parser fails exactly when the text has a colon and some component
is longer than two characters, fails to parse as an integer, or is negative
or at least 60 — or the text has no colon and does not parse as a
non-negative integer.  In particular `"abc"` and `"99:00"` fail. -/
theorem timestamp_in_seconds_none_iff (ts : String) :
    (timestamp_in_seconds ts = none ↔
      (ts.data.contains ':' = true ∧
        ∃ v ∈ split_char ':' ts.data, bad_component v)
      ∨ (ts.data.contains ':' = false ∧
          (python_int ts.data = none ∨
            ∃ n, python_int ts.data = some n ∧ n < 0)))
    ∧ timestamp_in_seconds "abc" = none
    ∧ timestamp_in_seconds "99:00" = none := by
  refine ⟨?_, by rfl, by rfl⟩
  unfold timestamp_in_seconds
  cases hc : ts.data.contains ':' with
  | true =>
    rw [if_pos rfl, foldlM_components_none_iff]
    constructor
    · intro h
      exact Or.inl ⟨rfl, h⟩
    · rintro (⟨_, h⟩ | ⟨h, _⟩)
      · exact h
      · exact absurd h (by simp)
  | false =>
    rw [if_neg (by simp)]
    constructor
    · intro h
      exact Or.inr ⟨rfl, (positive_int_true_none_iff ts.data).1 h⟩
    · rintro (⟨h, _⟩ | ⟨_, h⟩)
      · exact absurd h (by simp)
      · exact (positive_int_true_none_iff ts.data).2 h

/-! ### The Video dataclass and the extraction loop (main.py 11-21, 139-167) -/

/-- The `Video` dataclass (main.py 11-21).  The numeric fields are Python
ints; every constructed `Video` holds non-negative values — `start`/`end`
come out of a successful `validate_start_end` (see C5), `splitby` out of
`positive_int`, and the cv2 metadata is non-negative — so they are modelled
as `Nat`.  `end` is a Lean keyword, hence the field name `end_`. -/
structure Video where
  path : String
  dirname : String
  basename : String
  filename : String
  framecount : Nat
  fps : Nat
  splitby : Nat
  start : Nat
  end_ : Nat
deriving Repr, DecidableEq

/-- `math.ceil(a / b)` for natural `a`, `b` (exact rational division then
ceiling), as used on main.py 140. -/
def ceil_div (a b : Nat) : Nat := (a + b - 1) / b

/-- `frames_expected = math.ceil((video.end - video.start) / video.splitby)`
(main.py 140). -/
def frames_expected (v : Video) : Nat := ceil_div (v.end_ - v.start) v.splitby

/-- The image file name `f"frame{next_frame}.jpg"` (main.py 151). -/
def imgname (i : Nat) : String := "frame" ++ toString i ++ ".jpg"

/-- The read-and-write loop of `extract_frames` (main.py 146-165).  `n` is
the number of frames the decoder can actually deliver (a read at position
`nf` succeeds iff `nf < n`; the source may be shorter than its reported
frame count), `k` is the stride and `m` the expected frame count.  `nf` is
`next_frame` (also the decoder position: with `k = 1` reads are sequential,
otherwise the position is reset to `next_frame` each iteration) and `i` the
1-based write counter.  Returns the file names written, in order, and
whether `video_capture.release()` ran (`true` on both `break` paths; `fuel`
only forces termination and `extract_frames` always passes enough, see
`extractLoop_releases`). -/
def extractLoop (n k m : Nat) : Nat → Nat → Nat → List String × Bool
  | 0, _, _ => ([], false)
  | fuel + 1, nf, i =>
    if nf < n then
      if m = i then ([imgname nf], true)
      else
        let r := extractLoop n k m fuel (nf + k) (i + 1)
        (imgname nf :: r.1, r.2)
    else ([], true)

/-- `extract_frames` (main.py 139-167), projected to the decoder/file
behaviour: the files written into the frames directory and whether the
capture was released. -/
def extract_frames (n : Nat) (v : Video) : List String × Bool :=
  extractLoop n v.splitby (frames_expected v) (frames_expected v + n + 2)
    v.start 1

theorem extractLoop_releases (n k m : Nat) (hk : 0 < k) :
    ∀ fuel nf i, (m + 1 - i) + (n - nf) < fuel →
      (extractLoop n k m fuel nf i).2 = true := by
  intro fuel
  induction fuel with
  | zero => intro nf i h; omega
  | succ fuel ih =>
    intro nf i h
    unfold extractLoop
    by_cases hn : nf < n
    · rw [if_pos hn]
      by_cases hm : m = i
      · rw [if_pos hm]
      · rw [if_neg hm]
        exact ih (nf + k) (i + 1) (by omega)
    · rw [if_neg hn]

theorem extract_frames_releases (n : Nat) (v : Video) (hk : 0 < v.splitby) :
    (extract_frames n v).2 = true :=
  extractLoop_releases n v.splitby (frames_expected v) hk _ v.start 1 (by omega)

theorem extractLoop_eq (n k m : Nat) :
    ∀ fuel i nf, 1 ≤ i → i ≤ m → m + 1 - i ≤ fuel →
    (extractLoop n k m fuel nf i).1 =
      ((List.range' nf (m + 1 - i) k).takeWhile
        (fun x => decide (x < n))).map imgname := by
  intro fuel
  induction fuel with
  | zero => intro i nf h1 h2 h3; omega
  | succ fuel ih =>
    intro i nf h1 h2 h3
    unfold extractLoop
    by_cases hn : nf < n
    · rw [if_pos hn]
      by_cases hm : m = i
      · rw [if_pos hm]
        have hcnt : m + 1 - i = 1 := by omega
        rw [hcnt]
        have : List.range' nf 1 k = [nf] := by simp
        rw [this]
        rw [List.takeWhile_cons]
        rw [if_pos (by simpa using hn)]
        simp
      · rw [if_neg hm]
        simp only []
        have hcnt : m + 1 - i = (m + 1 - (i + 1)) + 1 := by omega
        rw [hcnt, List.range'_succ, List.takeWhile_cons,
          if_pos (by simpa using hn), List.map_cons]
        rw [ih (i + 1) (nf + k) (by omega) (by omega) (by omega)]
    · rw [if_neg hn]
      have hcnt : ∃ c, m + 1 - i = c + 1 := ⟨m - i, by omega⟩
      obtain ⟨c, hc⟩ := hcnt
      rw [hc, List.range'_succ, List.takeWhile_cons,
        if_neg (by simpa using hn)]
      simp

theorem frames_expected_pos (v : Video) (hk : 0 < v.splitby)
    (hse : v.start < v.end_) : 1 ≤ frames_expected v := by
  unfold frames_expected ceil_div
  rw [Nat.one_le_div_iff hk]
  omega

/-- C2: for a validated job (`start < end`, `stride > 0`) the files written
are `frame<i>.jpg` for the absolute indices `start, start+k, start+2k, …`,
truncated at the first index the decoder cannot read; when every read
succeeds (`end ≤ n`) exactly `ceil((end-start)/stride)` files are written
and every sampled index lies in `[start, end)`; when the stream ends early
the written list is a prefix of that full sequence (and this is no error:
the capture is still released, see C9). -/
theorem extract_frames_written (v : Video) (n : Nat)
    (hk : 0 < v.splitby) (hse : v.start < v.end_) :
    (extract_frames n v).1 =
      ((List.range' v.start (frames_expected v) v.splitby).takeWhile
        (fun x => decide (x < n))).map imgname
    ∧ (∃ rest,
        (List.range' v.start (frames_expected v) v.splitby).map imgname =
          (extract_frames n v).1 ++ rest)
    ∧ (v.end_ ≤ n →
        (extract_frames n v).1 =
          (List.range' v.start (frames_expected v) v.splitby).map imgname
        ∧ (extract_frames n v).1.length = frames_expected v
        ∧ ∀ x ∈ List.range' v.start (frames_expected v) v.splitby,
            v.start ≤ x ∧ x < v.end_) := by
  have hm1 := frames_expected_pos v hk hse
  have hmain : (extract_frames n v).1 =
      ((List.range' v.start (frames_expected v) v.splitby).takeWhile
        (fun x => decide (x < n))).map imgname := by
    unfold extract_frames
    rw [extractLoop_eq n v.splitby (frames_expected v) _ 1 v.start
      (by omega) hm1 (by omega)]
    have : frames_expected v + 1 - 1 = frames_expected v := by omega
    rw [this]
  have hbound : ∀ x ∈ List.range' v.start (frames_expected v) v.splitby,
      v.start ≤ x ∧ x < v.end_ := by
    intro x hx
    rw [List.mem_range'] at hx
    obtain ⟨i, hi, rfl⟩ := hx
    constructor
    · omega
    · have hdm : frames_expected v * v.splitby ≤
          (v.end_ - v.start) + v.splitby - 1 := by
        unfold frames_expected ceil_div
        exact Nat.div_mul_le_self _ _
      have hik : v.splitby * i ≤ v.splitby * (frames_expected v - 1) :=
        Nat.mul_le_mul_left _ (by omega)
      have : v.splitby * (frames_expected v - 1) =
          frames_expected v * v.splitby - v.splitby := by
        rw [Nat.mul_comm, Nat.sub_mul, one_mul]
      omega
  refine ⟨hmain, ?_, ?_⟩
  · refine ⟨((List.range' v.start (frames_expected v) v.splitby).dropWhile
      (fun x => decide (x < n))).map imgname, ?_⟩
    rw [hmain, ← List.map_append, List.takeWhile_append_dropWhile]
  · intro hend
    have hall : (List.range' v.start (frames_expected v) v.splitby).takeWhile
        (fun x => decide (x < n)) =
        List.range' v.start (frames_expected v) v.splitby := by
      rw [List.takeWhile_eq_self_iff]
      intro x hx
      have := (hbound x hx).2
      simp only [decide_eq_true_eq]
      omega
    refine ⟨by rw [hmain, hall], ?_, hbound⟩
    rw [hmain, hall, List.length_map, List.length_range']

/-- Sample job used as the C2 witness: `stride = 5`, range `[10, 25)` (the
spec's own example). -/
def demo_video : Video :=
  { path := "v.mp4", dirname := "", basename := "v.mp4", filename := "v",
    framecount := 25, fps := 5, splitby := 5, start := 10, end_ := 25 }

/-- Witness for C2 at the spec's example (`stride = 5`, `start_frame = 10`,
`end_frame = 25`): with a full stream the files are
`frame10.jpg, frame15.jpg, frame20.jpg`; with a stream that ends after
frame 15 the written list is the prefix `frame10.jpg, frame15.jpg`. -/
theorem extract_frames_written_witness :
    (extract_frames 25 demo_video).1 =
      ["frame10.jpg", "frame15.jpg", "frame20.jpg"]
    ∧ (extract_frames 16 demo_video).1 = ["frame10.jpg", "frame15.jpg"] := by
  constructor
  · rw [((extract_frames_written demo_video 25 (by decide) (by decide)).2.2
      (by decide)).1]
    rfl
  · rw [(extract_frames_written demo_video 16 (by decide) (by decide)).1]
    rfl

/-! ### Decimal rendering of naturals

`str(i)` in the collision loop of `make_framesdir` is `toString : Nat →
String`, i.e. `Nat.repr`.  The collision loop terminates because distinct
suffixes give distinct names, which needs `Nat.repr` to be injective; that is
proved here by relating the kernel's `Nat.toDigitsCore` to `Nat.digits`. -/

theorem toDigitsCore_append (f : Nat) :
    ∀ (n : Nat) (acc : List Char),
      Nat.toDigitsCore 10 f n acc = Nat.toDigitsCore 10 f n [] ++ acc := by
  induction f with
  | zero => intro n acc; rfl
  | succ f ih =>
    intro n acc
    unfold Nat.toDigitsCore
    by_cases h : n / 10 = 0
    · rw [if_pos h, if_pos h]
      rfl
    · rw [if_neg h, if_neg h]
      rw [ih (n / 10) [Nat.digitChar (n % 10)],
        ih (n / 10) (Nat.digitChar (n % 10) :: acc)]
      simp

theorem toDigitsCore_eq_digits (f : Nat) :
    ∀ n : Nat, 0 < n → n < 10 ^ f →
      Nat.toDigitsCore 10 f n [] =
        ((Nat.digits 10 n).map Nat.digitChar).reverse := by
  induction f with
  | zero =>
    intro n hn hf
    simp at hf
    omega
  | succ f ih =>
    intro n hn hf
    have hdig : Nat.digits 10 n = n % 10 :: Nat.digits 10 (n / 10) :=
      Nat.digits_def' (by norm_num) hn
    unfold Nat.toDigitsCore
    by_cases h : n / 10 = 0
    · rw [if_pos h]
      rw [hdig, h]
      simp
    · rw [if_neg h]
      rw [toDigitsCore_append f (n / 10) [Nat.digitChar (n % 10)]]
      have hlt : n / 10 < 10 ^ f := by
        rw [Nat.div_lt_iff_lt_mul (by norm_num)]
        calc n < 10 ^ (f + 1) := hf
        _ = 10 ^ f * 10 := by ring
      rw [ih (n / 10) (by omega) hlt, hdig]
      simp

theorem repr_eq_digits (n : Nat) (hn : 0 < n) :
    Nat.repr n = (((Nat.digits 10 n).map Nat.digitChar).reverse).asString := by
  unfold Nat.repr Nat.toDigits
  rw [toDigitsCore_eq_digits (n + 1) n hn]
  calc n < 10 ^ n := Nat.lt_pow_self (by norm_num) n
  _ ≤ 10 ^ (n + 1) := Nat.pow_le_pow_right (by norm_num) (by omega)

theorem digitChar_decode : ∀ d < 10, (Nat.digitChar d).toNat - 48 = d := by
  decide

theorem map_digitChar_inj (l1 l2 : List Nat)
    (h1 : ∀ d ∈ l1, d < 10) (h2 : ∀ d ∈ l2, d < 10)
    (h : l1.map Nat.digitChar = l2.map Nat.digitChar) : l1 = l2 := by
  have e1 : (l1.map Nat.digitChar).map (fun c => c.toNat - 48) = l1 := by
    rw [List.map_map]
    conv_rhs => rw [← List.map_id l1]
    apply List.map_congr_left
    intro d hd
    exact digitChar_decode d (h1 d hd)
  have e2 : (l2.map Nat.digitChar).map (fun c => c.toNat - 48) = l2 := by
    rw [List.map_map]
    conv_rhs => rw [← List.map_id l2]
    apply List.map_congr_left
    intro d hd
    exact digitChar_decode d (h2 d hd)
  rw [← e1, ← e2, h]

theorem asString_data (l : List Char) : (List.asString l).data = l := rfl

theorem repr_injective : Function.Injective Nat.repr := by
  intro m n h
  rcases Nat.eq_zero_or_pos m with hm | hm <;>
    rcases Nat.eq_zero_or_pos n with hn | hn
  · omega
  · exfalso
    subst hm
    rw [repr_eq_digits n hn] at h
    have hd := congrArg String.data h
    rw [show (Nat.repr 0).data = ['0'] from rfl, asString_data] at hd
    have hmap : (Nat.digits 10 n).map Nat.digitChar = ['0'] := by
      have := congrArg List.reverse hd
      simpa using this.symm
    have : Nat.digits 10 n = [0] :=
      map_digitChar_inj _ [0]
        (fun d hd' => Nat.digits_lt_base (by norm_num) hd')
        (by intro d hd'; simp at hd'; omega)
        (by rw [hmap]; rfl)
    have h0 := Nat.ofDigits_digits 10 n
    rw [this] at h0
    simp [Nat.ofDigits] at h0
    omega
  · exfalso
    subst hn
    rw [repr_eq_digits m hm] at h
    have hd := congrArg String.data h
    rw [show (Nat.repr 0).data = ['0'] from rfl, asString_data] at hd
    have hmap : (Nat.digits 10 m).map Nat.digitChar = ['0'] := by
      have := congrArg List.reverse hd
      simpa using this
    have : Nat.digits 10 m = [0] :=
      map_digitChar_inj _ [0]
        (fun d hd' => Nat.digits_lt_base (by norm_num) hd')
        (by intro d hd'; simp at hd'; omega)
        (by rw [hmap]; rfl)
    have h0 := Nat.ofDigits_digits 10 m
    rw [this] at h0
    simp [Nat.ofDigits] at h0
    omega
  · rw [repr_eq_digits m hm, repr_eq_digits n hn] at h
    have hd := congrArg String.data h
    rw [asString_data, asString_data] at hd
    have hmap := List.reverse_injective hd
    have hdig := map_digitChar_inj _ _
      (fun d hd' => Nat.digits_lt_base (by norm_num) hd')
      (fun d hd' => Nat.digits_lt_base (by norm_num) hd') hmap
    have h1 := Nat.ofDigits_digits 10 m
    have h2 := Nat.ofDigits_digits 10 n
    rw [hdig] at h1
    rw [h1] at h2
    exact_mod_cast h2

/-! ### Output directory naming (main.py 124-136) -/

/-- `os.path.join(dirname, name)` for the shapes this program produces: the
empty dirname yields the bare name, a dirname already ending in `/` is not
doubled, otherwise a `/` separator is inserted. -/
def path_join (d name : String) : String :=
  if d.data = [] then name
  else if d.data.getLast? = some '/' then d ++ name
  else d ++ "/" ++ name

/-- `frames_dirname` (main.py 125-126): the directory name derived from the
input file name, the stride and the resolved frame bounds. -/
def frames_dirname (v : Video) : String :=
  v.filename ++ "_frames_split_every_" ++ toString v.splitby ++ "_"
    ++ (if v.splitby = 1 then "frame" else "frames")
    ++ "_between_" ++ toString v.start ++ "_" ++ toString v.end_

/-- The collision suffix `f"{frames_dirname} ({i})"` (main.py 131). -/
def suffixed (base : String) (i : Nat) : String :=
  base ++ " (" ++ toString i ++ ")"

/-- The `while os.path.exists(framesdir)` loop of `make_framesdir`
(main.py 129-132), trying suffixes `(i)`, `(i+1)`, … until a name not in the
filesystem is found.  `fuel` only forces termination; `make_framesdir`
passes `fs.length + 1`, which always suffices (`make_framesdir_total`). -/
def find_free (fs : List String) (dirname base : String) :
    Nat → Nat → Option String
  | 0, _ => none
  | fuel + 1, i =>
    if fs.contains (path_join dirname (suffixed base i)) then
      find_free fs dirname base fuel (i + 1)
    else some (path_join dirname (suffixed base i))

/-- `make_framesdir` (main.py 124-136) up to the `os.mkdir` call: choose the
first free directory name.  The caller registers the created directory in
the filesystem. -/
def make_framesdir (fs : List String) (v : Video) : Option String :=
  if fs.contains (path_join v.dirname (frames_dirname v)) then
    find_free fs v.dirname (frames_dirname v) (fs.length + 1) 1
  else some (path_join v.dirname (frames_dirname v))

theorem string_append_data (a b : String) : (a ++ b).data = a.data ++ b.data :=
  rfl

theorem string_append_left_cancel (a x y : String)
    (h : a ++ x = a ++ y) : x = y := by
  have hd := congrArg String.data h
  rw [string_append_data, string_append_data] at hd
  exact String.ext (List.append_cancel_left hd)

theorem suffixed_injective (base : String) :
    Function.Injective (suffixed base) := by
  intro i j h
  have hd := congrArg String.data h
  simp only [suffixed, string_append_data, List.append_assoc] at hd
  have h1 := List.append_cancel_left hd
  have h2 := List.append_cancel_left h1
  have h3 := List.append_cancel_right h2
  apply repr_injective
  show Nat.repr i = Nat.repr j
  exact String.ext h3

theorem path_join_right_injective (d : String) :
    Function.Injective (path_join d) := by
  intro x y h
  unfold path_join at h
  split at h
  · exact h
  · split at h
    · exact string_append_left_cancel d x y h
    · exact string_append_left_cancel (d ++ "/") x y h

theorem find_free_not_mem (fs : List String) (dirname base : String) :
    ∀ fuel i d, find_free fs dirname base fuel i = some d →
      fs.contains d = false := by
  intro fuel
  induction fuel with
  | zero => intro i d h; exact absurd h (by simp [find_free])
  | succ fuel ih =>
    intro i d h
    unfold find_free at h
    split at h
    · exact ih (i + 1) d h
    · rw [Option.some_inj] at h
      subst h
      simp only [Bool.not_eq_true] at *
      rename_i hc
      exact Bool.not_eq_true _ ▸ (by simpa using hc)

theorem find_free_finds (fs : List String) (dirname base : String) :
    ∀ fuel i,
      (∃ j, i ≤ j ∧ j < i + fuel ∧
        fs.contains (path_join dirname (suffixed base j)) = false) →
      ∃ d, find_free fs dirname base fuel i = some d := by
  intro fuel
  induction fuel with
  | zero =>
    rintro i ⟨j, h1, h2, _⟩
    omega
  | succ fuel ih =>
    rintro i ⟨j, h1, h2, hj⟩
    unfold find_free
    split
    · rename_i hc
      apply ih (i + 1)
      refine ⟨j, ?_, by omega, hj⟩
      rcases Nat.eq_or_lt_of_le h1 with rfl | h
      · rw [hj] at hc
        simp at hc
      · omega
    · exact ⟨_, rfl⟩

theorem exists_free_suffix (fs : List String) (dirname base : String) :
    ∃ j, 1 ≤ j ∧ j < 1 + (fs.length + 1) ∧
      fs.contains (path_join dirname (suffixed base j)) = false := by
  by_contra hall
  push_neg at hall
  have hmem : ∀ j ∈ Finset.Icc 1 (fs.length + 1),
      path_join dirname (suffixed base j) ∈ fs.toFinset := by
    intro j hj
    rw [Finset.mem_Icc] at hj
    have := hall j hj.1 (by omega)
    rw [List.mem_toFinset]
    have hc : fs.contains (path_join dirname (suffixed base j)) = true := by
      cases hcc : fs.contains (path_join dirname (suffixed base j))
      · exact absurd hcc this
      · rfl
    exact List.elem_iff.mp hc
  have hinj : Function.Injective
      (fun j => path_join dirname (suffixed base j)) := by
    intro i j h
    exact suffixed_injective base (path_join_right_injective dirname h)
  have hcard := Finset.card_le_card
    (Finset.image_subset_iff.mpr hmem)
  rw [Finset.card_image_of_injective _ hinj, Nat.card_Icc] at hcard
  have := fs.toFinset_card_le
  omega

/-- The collision loop always finds a fresh name: `make_framesdir` returns a
directory that is not in the current filesystem. -/
theorem make_framesdir_total (fs : List String) (v : Video) :
    ∃ d, make_framesdir fs v = some d ∧ fs.contains d = false := by
  unfold make_framesdir
  split
  · obtain ⟨j, h1, h2, hj⟩ :=
      exists_free_suffix fs v.dirname (frames_dirname v)
    obtain ⟨d, hd⟩ := find_free_finds fs v.dirname (frames_dirname v)
      (fs.length + 1) 1 ⟨j, h1, by omega, hj⟩
    exact ⟨d, hd, find_free_not_mem fs v.dirname (frames_dirname v) _ 1 d hd⟩
  · rename_i hc
    refine ⟨_, rfl, ?_⟩
    cases hcc : fs.contains (path_join v.dirname (frames_dirname v))
    · rfl
    · exact absurd hcc hc

theorem string_length_append (a b : String) :
    (a ++ b).length = a.length + b.length := by
  show (a ++ b).data.length = a.data.length + b.data.length
  rw [string_append_data, List.length_append]

theorem path_join_length (d x : String) :
    (path_join d x).length =
      (if d.data = [] then 0
       else if d.data.getLast? = some '/' then d.length else d.length + 1)
      + x.length := by
  unfold path_join
  split_ifs
  · omega
  · rw [string_length_append]
  · rw [string_length_append, string_length_append]
    have : ("/" : String).length = 1 := rfl
    omega

theorem suffixed_one_length (base : String) :
    (suffixed base 1).length = base.length + 4 := by
  unfold suffixed
  rw [string_length_append, string_length_append, string_length_append]
  have h1 : (" (" : String).length = 2 := rfl
  have h2 : (toString (1 : Nat)).length = 1 := rfl
  have h3 : (")" : String).length = 1 := rfl
  omega

theorem path_join_suffixed_one_ne (d base : String) :
    path_join d (suffixed base 1) ≠ path_join d base := by
  intro h
  have hlen := congrArg String.length h
  rw [path_join_length, path_join_length, suffixed_one_length] at hlen
  omega

/-- C8: `make_framesdir` never reuses an existing directory.  The name is
derived deterministically from the input file name, the stride and the
resolved `[start_frame, end_frame)` bounds (`frames_dirname`); on collision
the suffixes ` (1)`, ` (2)`, … are tried in order and a free name is always
found; and creating the job twice against the same video and parameters
yields two distinct directories, the second being the first with ` (1)`
appended. -/
theorem make_framesdir_unique (fs : List String) (v : Video) :
    (∀ d, make_framesdir fs v = some d → fs.contains d = false)
    ∧ (∃ d, make_framesdir fs v = some d ∧ fs.contains d = false)
    ∧ (fs.contains (path_join v.dirname (frames_dirname v)) = false →
       fs.contains (path_join v.dirname (suffixed (frames_dirname v) 1))
          = false →
       make_framesdir fs v = some (path_join v.dirname (frames_dirname v))
       ∧ make_framesdir (path_join v.dirname (frames_dirname v) :: fs) v =
           some (path_join v.dirname (suffixed (frames_dirname v) 1))
       ∧ path_join v.dirname (suffixed (frames_dirname v) 1) ≠
           path_join v.dirname (frames_dirname v)) := by
  refine ⟨?_, make_framesdir_total fs v, ?_⟩
  · intro d h
    unfold make_framesdir at h
    split at h
    · exact find_free_not_mem fs v.dirname (frames_dirname v) _ 1 d h
    · rename_i hc
      rw [Option.some_inj] at h
      subst h
      cases hcc : fs.contains (path_join v.dirname (frames_dirname v))
      · rfl
      · exact absurd hcc hc
  · intro h1 h2
    refine ⟨?_, ?_, path_join_suffixed_one_ne v.dirname (frames_dirname v)⟩
    · unfold make_framesdir
      rw [if_neg (by rw [h1]; simp)]
    · unfold make_framesdir
      rw [if_pos (by simp [List.contains_cons])]
      show find_free _ _ _ (fs.length + 1 + 1) 1 = _
      unfold find_free
      rw [if_neg ?_]
      · rintro hmem
        rw [List.contains_cons] at hmem
        rcases Bool.or_eq_true_iff.mp hmem with hh | ht
        · exact path_join_suffixed_one_ne v.dirname (frames_dirname v)
            (by simpa using hh)
        · rw [h2] at ht
          simp at ht

/-- A second sample job, with a non-empty parent directory, used as the C8
witness: two runs against an initially collision-free filesystem create
`vids/clip_frames_split_every_3_frames_between_10_25` and then the same name
suffixed ` (1)`. -/
def c8_video : Video :=
  { path := "vids/clip.mp4", dirname := "vids", basename := "clip.mp4",
    filename := "clip", framecount := 30, fps := 5, splitby := 3,
    start := 10, end_ := 25 }

/-- Witness for C8 at `fs = []` and the job `c8_video`. -/
theorem make_framesdir_unique_witness :
    make_framesdir [] c8_video =
      some "vids/clip_frames_split_every_3_frames_between_10_25"
    ∧ make_framesdir ["vids/clip_frames_split_every_3_frames_between_10_25"]
        c8_video =
      some "vids/clip_frames_split_every_3_frames_between_10_25 (1)" := by
  have h := (make_framesdir_unique [] c8_video).2.2 (by rfl) (by rfl)
  constructor
  · rw [h.1]
    rfl
  · have hlist : path_join c8_video.dirname (frames_dirname c8_video)
        :: ([] : List String) =
        ["vids/clip_frames_split_every_3_frames_between_10_25"] := by rfl
    rw [← hlist, h.2.1]
    rfl

/-! ### Decoder resource discipline and the top-level flow (main.py 70-79,
99-121, 139-167, 170-201) -/

/-- Events on the cv2 decoder resource: a `VideoCapture` construction that
opened the source, one that failed to open it (no resource is acquired
then), and a `release()` call. -/
inductive DecEvent where
  | openOk
  | openFail
  | release
deriving DecidableEq, Repr

/-- `video_details` (main.py 70-79), value part: the reported frame count
and fps, or `IOError` when the source cannot be opened. -/
def video_details (openable : Bool) (framecount fps : Int) :
    Option (Int × Int) :=
  if openable then some (framecount, fps) else none

/-- Decoder events of `video_details` (main.py 70-79): on a failed open it
raises `IOError` holding no resource; on success it reads the metadata and
releases before returning. -/
def video_details_trace (openable : Bool) : List DecEvent :=
  if openable then [.openOk, .release] else [.openFail]

/-- Decoder events of `extract_frames` (main.py 139-167): a failed open
holds no resource (the `while video_capture.isOpened()` loop simply never
runs); after a successful open, both loop exits (`frames_expected` reached,
or a failed read) call `release()` first — `(extract_frames n v).2` is that
release flag. -/
def extract_frames_trace (openable : Bool) (n : Nat) (v : Video) :
    List DecEvent :=
  if openable then
    .openOk :: (if (extract_frames n v).2 then [.release] else [])
  else [.openFail]

/-- Every successfully opened decoder is eventually released. -/
def releases_opened (t : List DecEvent) : Prop :=
  t.count .openOk = t.count .release

/-- The failure modes of a run: `IOError` from `video_details`, or the
`print` + `sys.exit(1)` that `build_video_metadata` performs when
`validate_start_end` raises (main.py 105-109). -/
inductive RunError where
  | ioError
  | rangeExit (e : RangeErr)
deriving DecidableEq, Repr

/-- The environment a run executes in: the existing filesystem paths, the
cv2 behaviour on the input video (whether it opens, the metadata it
reports) and the number of frames that can actually be read. -/
structure World where
  fs : List String
  openable : Bool
  framecount : Int
  fps : Int
  readable : Nat

/-- The parsed CLI arguments: `path`, `--frames` (a `positive_int`, so
positive), and `--start` and `--end` (from `timestamp_in_seconds`, so
non-negative seconds). -/
structure Args where
  path : String
  splitby : Nat
  start : Int
  endTs : Option Int

/-- Result of a run: the outcome, the filesystem afterwards, and the
decoder events that happened. -/
structure RunResult where
  outcome : Except RunError String
  fs : List String
  trace : List DecEvent

/-- `main` after argument parsing (main.py 99-121 and 139-167, called on
main.py 200-201): `build_video_metadata` opens the video for its metadata
(exiting on `IOError` or on a `validate_start_end` failure before anything
is created), then `extract_frames` creates the frames directory and writes
the sampled frames into it.  `dirname`/`basename`/`filename` are the
`os.path` derivations of main.py 100-102, passed in as inputs. -/
def run_main (w : World) (a : Args) (dirname basename filename : String) :
    RunResult :=
  if w.openable then
    match validate_start_end w.framecount w.fps a.start a.endTs with
    | .error e =>
        { outcome := .error (.rangeExit e), fs := w.fs,
          trace := video_details_trace true }
    | .ok (s0, e0) =>
        let v : Video :=
          { path := a.path, dirname := dirname, basename := basename,
            filename := filename, framecount := w.framecount.toNat,
            fps := w.fps.toNat, splitby := a.splitby,
            start := s0.toNat, end_ := e0.toNat }
        match make_framesdir w.fs v with
        | none =>
            -- unreachable: `make_framesdir_total`
            { outcome := .error .ioError, fs := w.fs,
              trace := video_details_trace true }
        | some d =>
            { outcome := .ok d,
              fs := (extract_frames w.readable v).1.map (path_join d)
                ++ d :: w.fs,
              trace := video_details_trace true
                ++ extract_frames_trace w.openable w.readable v }
  else
    { outcome := .error .ioError, fs := w.fs,
      trace := video_details_trace false }

/-- C9: the decoder handle is released on every exit path on which it was
opened — in `video_details` (including its `IOError` path, where nothing was
opened), in `extract_frames` for any stream length (normal completion and
early stream end alike), and along every path of the composed run,
including the validation-failure exit. -/
theorem decoder_always_released (w : World) (a : Args)
    (dn bn fn : String) (ha : 0 < a.splitby) :
    (∀ b : Bool, releases_opened (video_details_trace b))
    ∧ (∀ (b : Bool) (n : Nat) (v : Video), 0 < v.splitby →
        releases_opened (extract_frames_trace b n v))
    ∧ releases_opened (run_main w a dn bn fn).trace := by
  have hvd : ∀ b : Bool, releases_opened (video_details_trace b) := by
    intro b
    cases b <;> rfl
  have hex : ∀ (b : Bool) (n : Nat) (v : Video), 0 < v.splitby →
      releases_opened (extract_frames_trace b n v) := by
    intro b n v hv
    cases b
    · rfl
    · unfold extract_frames_trace
      rw [if_pos rfl, extract_frames_releases n v hv]
      rfl
  refine ⟨hvd, hex, ?_⟩
  unfold run_main
  cases hw : w.openable
  · rw [if_neg (by simp)]
    exact hvd false
  · rw [if_pos rfl]
    cases hval : validate_start_end w.framecount w.fps a.start a.endTs with
    | error e => exact hvd true
    | ok p =>
      cases p with
      | mk s0 e0 =>
        simp only []
        cases hmk : make_framesdir w.fs
            { path := a.path, dirname := dn, basename := bn,
              filename := fn, framecount := w.framecount.toNat,
              fps := w.fps.toNat, splitby := a.splitby,
              start := s0.toNat, end_ := e0.toNat } with
        | none => exact hvd true
        | some d =>
          show releases_opened (video_details_trace true
            ++ extract_frames_trace true w.readable _)
          unfold releases_opened
          rw [List.count_append, List.count_append]
          have h1 := hvd true
          have h2 := hex true w.readable
            { path := a.path, dirname := dn, basename := bn,
              filename := fn, framecount := w.framecount.toNat,
              fps := w.fps.toNat, splitby := a.splitby,
              start := s0.toNat, end_ := e0.toNat } ha
          unfold releases_opened at h1 h2
          omega

/-- Witness for C9: a run over an empty filesystem with a 100-frame,
10 fps video, full range, stride 1 — its event trace is balanced, as are
the `video_details` and `extract_frames` traces of both a video that opens
and one that does not. -/
theorem decoder_always_released_witness :
    releases_opened (run_main
      { fs := [], openable := true, framecount := 100, fps := 10,
        readable := 100 }
      { path := "v.mp4", splitby := 1, start := 0, endTs := none }
      "" "v.mp4" "v").trace
    ∧ releases_opened (video_details_trace false)
    ∧ releases_opened (extract_frames_trace true 25 demo_video) := by
  have h := decoder_always_released
    { fs := [], openable := true, framecount := 100, fps := 10,
      readable := 100 }
    { path := "v.mp4", splitby := 1, start := 0, endTs := none }
    "" "v.mp4" "v" (by decide)
  exact ⟨h.2.2, h.1 false, h.2.1 true 25 demo_video (by decide)⟩

/-- C10: when range validation fails, the run exits before the output
directory is created and before any frame is written — the filesystem is
returned unchanged, and (when the video opened, so that validation was even
reached) the outcome is the validation-failure exit. -/
theorem run_main_validation_failure (w : World) (a : Args)
    (dn bn fn : String) (err : RangeErr)
    (h : validate_start_end w.framecount w.fps a.start a.endTs = .error err) :
    (run_main w a dn bn fn).fs = w.fs
    ∧ (w.openable = true →
        (run_main w a dn bn fn).outcome = .error (.rangeExit err)) := by
  unfold run_main
  cases hw : w.openable
  · rw [if_neg (by simp)]
    exact ⟨rfl, by intro hc; exact absurd hc (by simp)⟩
  · rw [if_pos rfl]
    rw [h]
    exact ⟨rfl, fun _ => rfl⟩

/-- Witness for C10: `start = 20 s`, `end = 5 s` on a 100-frame, 10 fps
video fails validation (start frame 200 exceeds the length), and the run
leaves the filesystem — here holding one unrelated path — untouched. -/
theorem run_main_validation_failure_witness :
    (run_main
      { fs := ["existing.txt"], openable := true, framecount := 100,
        fps := 10, readable := 100 }
      { path := "v.mp4", splitby := 1, start := 20, endTs := some 5 }
      "" "v.mp4" "v").fs = ["existing.txt"]
    ∧ (run_main
      { fs := ["existing.txt"], openable := true, framecount := 100,
        fps := 10, readable := 100 }
      { path := "v.mp4", splitby := 1, start := 20, endTs := some 5 }
      "" "v.mp4" "v").outcome = .error (.rangeExit .startExceeds) := by
  have h := run_main_validation_failure
    { fs := ["existing.txt"], openable := true, framecount := 100,
      fps := 10, readable := 100 }
    { path := "v.mp4", splitby := 1, start := 20, endTs := some 5 }
    "" "v.mp4" "v" .startExceeds rfl
  exact ⟨h.1, h.2 rfl⟩
